import Mathlib

/-! # ioriot — `src/defaults.h`

A verification development over the compile-time defaults of I/O Riot.

`defaults.h` consists of object-like preprocessor macros and one enumeration.
An object-like macro is a *token sequence* that the preprocessor splices into
the place of use, so the macros are embedded here as token lists and an
expression that mentions a macro is the token list obtained by splicing the
body in.  The resulting token list is evaluated with the precedence and
associativity rules of C's binary operators.
-/

namespace Ioriot

/-! ## C constant expressions -/

/-- Binary operators of C that occur in size and limit checks. -/
inductive BinOp where
  | mul | div | mod | add | lt | gt | le | ge | eq | ne
  deriving DecidableEq

/-- Binding strength, following the C grammar: multiplicative operators bind
tighter than additive ones, these tighter than relational ones, and these
tighter than equality operators. -/
def BinOp.prec : BinOp → Nat
  | .mul | .div | .mod => 3
  | .add => 2
  | .lt | .gt | .le | .ge => 1
  | .eq | .ne => 0

/-- Value of `a o b` on non-negative operands.  Division and remainder by zero
are undefined in C and give `none`; a comparison gives `1` or `0`. -/
def BinOp.apply : BinOp → Nat → Nat → Option Nat
  | .mul, a, b => some (a * b)
  | .div, a, b => if b = 0 then none else some (a / b)
  | .mod, a, b => if b = 0 then none else some (a % b)
  | .add, a, b => some (a + b)
  | .lt, a, b => some (if a < b then 1 else 0)
  | .gt, a, b => some (if a > b then 1 else 0)
  | .le, a, b => some (if a ≤ b then 1 else 0)
  | .ge, a, b => some (if a ≥ b then 1 else 0)
  | .eq, a, b => some (if a = b then 1 else 0)
  | .ne, a, b => some (if a ≠ b then 1 else 0)

/-- Preprocessing tokens of a constant expression: an integer constant or a
binary operator. -/
inductive Tok where
  | num (n : Nat)
  | op (o : BinOp)
  deriving DecidableEq

/-- Apply the operator `o` to the two topmost values of the value stack (the
right operand is on top). -/
def reduceTop (o : BinOp) : List Nat → Option (List Nat)
  | b :: a :: vs => (o.apply a b).map (fun v => v :: vs)
  | _ => none

/-- Reduce every pending operator that binds at least as tightly as `p`.
All operators are left-associative, so an operator of equal strength that is
already pending is applied first. -/
def unwind (p : Nat) : List BinOp → List Nat → Option (List BinOp × List Nat)
  | [], vs => some ([], vs)
  | o :: os, vs =>
    if p ≤ o.prec then
      match reduceTop o vs with
      | some vs1 => unwind p os vs1
      | none => none
    else some (o :: os, vs)

/-- Operator-precedence evaluation of a token list.  `wantOperand` says whether
the next token has to be an operand; `ops` and `vs` are the pending operators
and the values computed so far. -/
def evalLoop : List Tok → Bool → List BinOp → List Nat → Option Nat
  | [], true, _, _ => none
  | [], false, ops, vs =>
    match unwind 0 ops vs with
    | some ([], [v]) => some v
    | _ => none
  | .num n :: ts, true, ops, vs => evalLoop ts false ops (n :: vs)
  | .num _ :: _, false, _, _ => none
  | .op _ :: _, true, _, _ => none
  | .op o :: ts, false, ops, vs =>
    match unwind o.prec ops vs with
    | some (ops1, vs1) => evalLoop ts true (o :: ops1) vs1
    | none => none

/-- Value of the C expression spelled by `ts`, `none` when `ts` is not an
expression or its value is undefined. -/
def evalExpr (ts : List Tok) : Option Nat :=
  evalLoop ts true [] []

/-! ## The macros of `defaults.h` -/

/-- Body of `#define CAPTURE_VERSION 1`. -/
def CAPTURE_VERSION : List Tok := [.num 1]

/-- Body of `#define REPLAY_VERSION 1`. -/
def REPLAY_VERSION : List Tok := [.num 1]

/-- Body of `#define MAX_TOKENS 10`. -/
def MAX_TOKENS : List Tok := [.num 10]

/-- Body of `#define MAX_LINE_LEN 1024*8`: three tokens, no parentheses. -/
def MAX_LINE_LEN : List Tok := [.num 1024, .op .mul, .num 8]

/-- Body of `#define TASK_BUFFER_PER_THREAD 512`. -/
def TASK_BUFFER_PER_THREAD : List Tok := [.num 512]

/-- Body of `#define SET_RLIMIT_NOFILE 369216`. -/
def SET_RLIMIT_NOFILE : List Tok := [.num 369216]

/-- Body of `#define SET_RLIMIT_NPROC 30768`. -/
def SET_RLIMIT_NPROC : List Tok := [.num 30768]

/-- The expression `a o M` after preprocessing, for an operand `a`, an operator
`o` and a macro `M`: the macro's tokens follow the operator as they are. -/
def binExpr (a : Nat) (o : BinOp) (M : List Tok) : List Tok :=
  .num a :: .op o :: M

/-- Truth of a C condition: defined and non-zero. -/
def holds (ts : List Tok) : Bool :=
  match evalExpr ts with
  | some v => v != 0
  | none => false

/-! ## The status enumeration -/

/-- The enumeration constants that
`typedef enum status_e_ { SUCCESS, UNKNOWN, ERROR } status_e` declares, as
identifiers. -/
inductive Enumerator where
  | SUCCESS
  | UNKNOWN
  | ERROR
  deriving DecidableEq

/-- Enumerators of `status_e_` in the order of the declaration; none of them
has an explicit initialiser. -/
def status_e.enumerators : List Enumerator :=
  [.SUCCESS, .UNKNOWN, .ERROR]

/-- Integer values of an enumerator list without initialisers: the first
enumerator is `0` and each further one is the previous value plus one. -/
def enumValues {α : Type} : List α → Nat → List (α × Nat)
  | [], _ => []
  | e :: es, v => (e, v) :: enumValues es (v + 1)

/-- Integer value of an enumerator, read off the declaration. -/
def Enumerator.toNat (s : Enumerator) : Option Nat :=
  (enumValues status_e.enumerators 0).lookup s

/-- The enumerator an integer is the value of, if there is one. -/
def Enumerator.fromNat (v : Nat) : Option Enumerator :=
  ((enumValues status_e.enumerators 0).find? (fun p => p.2 = v)).map Prod.fst

/-- Return status codes: a value of the type `status_e`.  An enumerated type
of C is an integer type, so an object of type `status_e` holds an integer
`val`, and a conversion such as `(status_e)3`, here `status_e.mk 3`, gives a
value of the type that no enumerator denotes.  All values used here are
below 128 and so fit whichever integer type the implementation picks. -/
structure status_e where
  val : Nat
  deriving DecidableEq

/-- The value of type `status_e` that an enumerator denotes, the integer the
declaration gives it (every enumerator is in the declaration, so the default
is never taken). -/
def status_e.ofEnumerator (e : Enumerator) : status_e :=
  ⟨e.toNat.getD 0⟩

/-- Great success! -/
def status_e.SUCCESS : status_e :=
  .ofEnumerator .SUCCESS

/-- Unknown return status. -/
def status_e.UNKNOWN : status_e :=
  .ofEnumerator .UNKNOWN

/-- An error happened. -/
def status_e.ERROR : status_e :=
  .ofEnumerator .ERROR

/-! ## Record tokenizer and trace reader

`defaults.h` gives the limits; the tokenizer and the reader that apply them are
described by the specification (sections 4.1, 4.2, 6). -/

section Reader

variable {α : Type} [DecidableEq α]

/-- Modelled from the spec: the tokenizer's splitting step (the tokenizer is
not part of `defaults.h`).  "Splits on the format's field delimiter, emitting
tokens in order."  A line with `k` delimiters has `k + 1` fields, empty fields
included. -/
def splitFields (d : α) : List α → List (List α)
  | [] => [[]]
  | c :: cs =>
    if c = d then [] :: splitFields d cs
    else
      match splitFields d cs with
      | [] => [[c]]
      | f :: fs => (c :: f) :: fs

/-- Modelled from the spec: "re-joining the TokenSet with the delimiter", the
inverse direction of the tokenizer's split. -/
def joinFields (d : α) : List (List α) → List α
  | [] => []
  | [f] => f
  | f :: g :: fs => f ++ d :: joinFields d (g :: fs)

/-- Modelled from the spec: the RecordTokenizer of section 4.1 (not part of
`defaults.h`).  A line longer than `MAX_LINE_LEN` fails with `ERROR` before any
splitting; a line with more than `MAX_TOKENS` fields fails with `ERROR`; else
the whole token set is returned.  Both checks are the C comparisons
`len > MAX_LINE_LEN` and `n > MAX_TOKENS` on the macros of `defaults.h`. -/
def tokenize (d : α) (line : List α) : Except status_e (List (List α)) :=
  if holds (binExpr line.length .gt MAX_LINE_LEN) then .error .ERROR
  else
    let ts := splitFields d line
    if holds (binExpr ts.length .gt MAX_TOKENS) then .error .ERROR
    else .ok ts

/-- Modelled from the spec: a decoded record (CaptureRecord / ReplayRecord of
section 3).  The spec fixes only "token 0 = operation kind, remaining tokens
≤9 operand fields". -/
structure Record (α : Type) where
  kind : List α
  operands : List (List α)
  deriving DecidableEq

/-- Modelled from the spec: interpretation of a token set as a record. -/
def Record.ofTokens : List (List α) → Option (Record α)
  | [] => none
  | k :: ops => some ⟨k, ops⟩

/-- Modelled from the spec: one element of the reader's sequence (section 4.2),
"either a decoded Record or a tagged parse failure carrying the offending line
number". -/
inductive ParseResult (α : Type) where
  | record (r : Record α)
  | failure (lineNo : Nat) (st : status_e)
  deriving DecidableEq

/-- Modelled from the spec: the format parameters the spec leaves to policy,
the field delimiter and the comment marking. -/
structure Format (α : Type) where
  delim : α
  isComment : List α → Bool

/-- Modelled from the spec: the two file kinds and their supported versions. -/
inductive FileKind where
  | capture
  | replay
  deriving DecidableEq

/-- Modelled from the spec: the version macro a file of each kind is checked
against, `CAPTURE_VERSION` for a capture file and `REPLAY_VERSION` for a replay
file. -/
def FileKind.supported : FileKind → List Tok
  | .capture => CAPTURE_VERSION
  | .replay => REPLAY_VERSION

/-- Modelled from the spec: a trace file, its declared header version and the
lines after the header. -/
structure TraceFile (α : Type) where
  version : Nat
  lines : List (List α)

/-- Modelled from the spec: the reader's treatment of one line (sections 4.1,
4.2).  Over-long input is rejected first; empty and comment-marked lines
"produce no record and are not errors"; any other line is tokenized and becomes
a record or a failure tagged with its line number. -/
def readLine (fmt : Format α) (lineNo : Nat) (line : List α) : Option (ParseResult α) :=
  if holds (binExpr line.length .gt MAX_LINE_LEN) then some (.failure lineNo .ERROR)
  else if line.isEmpty || fmt.isComment line then none
  else
    match tokenize fmt.delim line with
    | .error st => some (.failure lineNo st)
    | .ok ts =>
      match Record.ofTokens ts with
      | some r => some (.record r)
      | none => some (.failure lineNo .ERROR)

/-- Modelled from the spec: the reader continues after a per-line failure. -/
def readLines (fmt : Format α) : Nat → List (List α) → List (ParseResult α)
  | _, [] => []
  | lineNo, l :: ls =>
    match readLine fmt lineNo l with
    | some r => r :: readLines fmt (lineNo + 1) ls
    | none => readLines fmt (lineNo + 1) ls

/-- Modelled from the spec: the outcome of reading a file. -/
structure ReadReport (α : Type) where
  fatal : Bool
  results : List (ParseResult α)

/-- Modelled from the spec: the TraceFileReader of section 4.2.  A declared
version different from the supported one is fatal and yields no records; else
the lines after the header (line 1) are read in order. -/
def readTrace (kind : FileKind) (fmt : Format α) (file : TraceFile α) : ReadReport α :=
  if holds (binExpr file.version .ne kind.supported) then ⟨true, []⟩
  else ⟨false, readLines fmt 2 file.lines⟩

/-- Modelled from the spec: the "total records processed" of a run, the
records the reader yielded. -/
def ReadReport.processed (r : ReadReport α) : Nat :=
  (r.results.filter (fun x => match x with | .record _ => true | .failure _ _ => false)).length

/-- Modelled from the spec: the per-line parse failures of a run. -/
def ReadReport.errors (r : ReadReport α) : Nat :=
  (r.results.filter (fun x => match x with | .record _ => false | .failure _ _ => true)).length

/-- The line `WRITE,/data/a,4096,0` of the spec's example trace. -/
def exampleLine : List Char :=
  "WRITE,/data/a,4096,0".toList

/-- A format with `,` as delimiter and `#` as comment mark. -/
def commaFormat : Format Char :=
  ⟨',', fun l => l.head? = some '#'⟩

end Reader

/-! ## Replay scheduler -/

section Scheduler

variable {ρ : Type}

/-- Modelled from the spec: a ReplayTask (section 3), "a ReplayRecord bound to
a destination worker thread index and a monotonically increasing sequence
number". -/
structure ReplayTask (ρ : Type) where
  record : ρ
  worker : Nat
  seq : Nat

/-- Modelled from the spec: state of the scheduler and its workers (sections
4.3, 4.4): the records not yet assigned, the next sequence number, each
worker's queue and the number of tasks each worker has received so far. -/
structure Sched (ρ : Type) where
  pending : List ρ
  seq : Nat
  queue : Nat → List (ReplayTask ρ)
  received : Nat → Nat

/-- Modelled from the spec: the atomic actions of a run.  `dispatch` is the
scheduler assigning the next record; `work w` is worker `w` dequeuing the task
at the head of its queue. -/
inductive Event where
  | dispatch
  | work (w : Nat)
  deriving DecidableEq

/-- Modelled from the spec: round-robin assignment, record `i` goes to worker
`i mod n`. -/
def roundRobin (n : Nat) (i : Nat) (_ : ρ) : Nat :=
  i % n

/-- Modelled from the spec: initial state, nothing assigned and every queue
empty. -/
def Sched.init (records : List ρ) : Sched ρ :=
  ⟨records, 0, fun _ => [], fun _ => 0⟩

/-- Modelled from the spec: one action of the scheduler or of a worker
(sections 4.3, 4.4).  An enqueue "succeeds if current size < capacity", the
capacity being `TASK_BUFFER_PER_THREAD`; on a full queue the scheduler blocks,
so no `dispatch` happens.  A worker blocks on an empty queue.  `none` means
the action cannot happen in this state. -/
def Sched.step (n : Nat) (assign : Nat → ρ → Nat) (s : Sched ρ) : Event → Option (Sched ρ)
  | .dispatch =>
    match s.pending with
    | [] => none
    | r :: rs =>
      let w := assign s.seq r
      if w < n ∧ holds (binExpr (s.queue w).length .lt TASK_BUFFER_PER_THREAD) then
        some ⟨rs, s.seq + 1,
          Function.update s.queue w (s.queue w ++ [⟨r, w, s.seq⟩]),
          Function.update s.received w (s.received w + 1)⟩
      else none
  | .work w =>
    match s.queue w with
    | [] => none
    | _ :: ts => some ⟨s.pending, s.seq, Function.update s.queue w ts, s.received⟩

/-- Modelled from the spec: a run, the actions taken one after the other. -/
def Sched.run (n : Nat) (assign : Nat → ρ → Nat) : List Event → Sched ρ → Option (Sched ρ)
  | [], s => some s
  | e :: es, s =>
    match s.step n assign e with
    | some s1 => Sched.run n assign es s1
    | none => none

/-- Modelled from the spec: the number of tasks worker `w` receives when the
records `0, …, total - 1` are assigned round-robin over `n` workers. -/
def assignedCount (n total w : Nat) : Nat :=
  ((List.range total).filter (fun i => i % n = w)).length

/-- What holds in every state of a round-robin run over `total` records: the
records are all either assigned or pending, no queue is above the capacity of
512 or above what its worker has received, and worker `w` has received the
records `i < seq` with `i mod n = w`. -/
def Sched.Inv (n total : Nat) (s : Sched ρ) : Prop :=
  s.seq + s.pending.length = total ∧
  ∀ w, (s.queue w).length ≤ 512 ∧ (s.queue w).length ≤ s.received w ∧
    s.received w = assignedCount n s.seq w

end Scheduler

/-! ## Evaluation lemmas -/

theorem evalExpr_num (a : Nat) : evalExpr [.num a] = some a := by
  simp [evalExpr, evalLoop, unwind]

theorem evalExpr_cmp_num (a b : Nat) (o : BinOp) (ho : o.prec ≤ 1) :
    evalExpr (binExpr a o [.num b]) = o.apply a b := by
  cases o <;> simp [BinOp.prec] at ho <;>
    simp [evalExpr, binExpr, evalLoop, unwind, reduceTop, BinOp.prec, BinOp.apply]

theorem evalExpr_gt_MAX_LINE_LEN (len : Nat) :
    evalExpr (binExpr len .gt MAX_LINE_LEN) = some (if len > 8192 then 1 else 0) := by
  simp [evalExpr, binExpr, MAX_LINE_LEN, evalLoop, unwind, reduceTop, BinOp.prec, BinOp.apply]

theorem holds_gt_MAX_LINE_LEN (len : Nat) :
    holds (binExpr len .gt MAX_LINE_LEN) = decide (8192 < len) := by
  simp only [holds, evalExpr_gt_MAX_LINE_LEN]
  by_cases h : len > 8192 <;> simp [h]

theorem holds_gt_MAX_TOKENS (n : Nat) :
    holds (binExpr n .gt MAX_TOKENS) = decide (10 < n) := by
  simp only [holds, MAX_TOKENS, evalExpr_cmp_num n 10 .gt (by decide), BinOp.apply]
  by_cases h : n > 10 <;> simp [h]

theorem holds_ne_one (v : Nat) : holds (binExpr v .ne [.num 1]) = decide (v ≠ 1) := by
  simp only [holds, evalExpr_cmp_num v 1 .ne (by decide), BinOp.apply]
  by_cases h : v = 1 <;> simp [h]

theorem holds_ne_supported (kind : FileKind) (v : Nat) :
    holds (binExpr v .ne kind.supported) = decide (v ≠ 1) := by
  cases kind <;> simp only [FileKind.supported, CAPTURE_VERSION, REPLAY_VERSION, holds_ne_one]

theorem holds_lt_TASK_BUFFER_PER_THREAD (n : Nat) :
    holds (binExpr n .lt TASK_BUFFER_PER_THREAD) = decide (n < 512) := by
  simp only [holds, TASK_BUFFER_PER_THREAD, evalExpr_cmp_num n 512 .lt (by decide), BinOp.apply]
  by_cases h : n < 512 <;> simp [h]

/-! ## The limits of `defaults.h` -/

/-- C1: `MAX_LINE_LEN` evaluates to 8192, so the check `len > MAX_LINE_LEN` is
true exactly for the lengths above 8192, as is `MAX_LINE_LEN < len`; the
check is false for a line of 8192 bytes and true for a line of 8193 bytes. -/
theorem max_line_len_limit :
    evalExpr MAX_LINE_LEN = some 8192 ∧
    evalExpr MAX_LINE_LEN = some (1024 * 8) ∧
    (∀ len : Nat, evalExpr (binExpr len .gt MAX_LINE_LEN) = some (if len > 8192 then 1 else 0)) ∧
    (∀ len : Nat, holds (binExpr len .gt MAX_LINE_LEN) = true ↔ len > 8192) ∧
    (∀ len : Nat, holds (MAX_LINE_LEN ++ [.op .lt, .num len]) = true ↔ len > 8192) ∧
    holds (binExpr 8192 .gt MAX_LINE_LEN) = false ∧
    holds (binExpr 8193 .gt MAX_LINE_LEN) = true := by
  refine ⟨by decide, by decide, evalExpr_gt_MAX_LINE_LEN, ?_, ?_, ?_, ?_⟩
  · intro len
    simp [holds_gt_MAX_LINE_LEN]
  · intro len
    by_cases h : 8192 < len <;>
      simp [holds, evalExpr, MAX_LINE_LEN, evalLoop, unwind, reduceTop, BinOp.prec,
        BinOp.apply, h]
  · simp [holds_gt_MAX_LINE_LEN]
  · simp [holds_gt_MAX_LINE_LEN]

/-- C2: `MAX_TOKENS` is 10, so the check `n > MAX_TOKENS` is true exactly for
the token counts above 10; it is false for 10 fields and true for 11. -/
theorem max_tokens_limit :
    MAX_TOKENS = [.num 10] ∧
    evalExpr MAX_TOKENS = some 10 ∧
    (∀ n : Nat, evalExpr (binExpr n .gt MAX_TOKENS) = some (if n > 10 then 1 else 0)) ∧
    (∀ n : Nat, holds (binExpr n .gt MAX_TOKENS) = true ↔ n > 10) ∧
    holds (binExpr 10 .gt MAX_TOKENS) = false ∧
    holds (binExpr 11 .gt MAX_TOKENS) = true := by
  refine ⟨rfl, by decide, ?_, ?_, ?_, ?_⟩
  · intro n
    simp [MAX_TOKENS, evalExpr_cmp_num n 10 .gt (by decide), BinOp.apply]
  · intro n
    simp [holds_gt_MAX_TOKENS]
  · simp [holds_gt_MAX_TOKENS]
  · simp [holds_gt_MAX_TOKENS]

/-- C3: `CAPTURE_VERSION` and `REPLAY_VERSION` are both 1 and equal, so for a
declared header version `v` the mismatch checks `v != CAPTURE_VERSION` and
`v != REPLAY_VERSION` are true exactly when `v ≠ 1`: they are false for a
header of 1 and true for headers of 2 and 0. -/
theorem supported_versions :
    evalExpr CAPTURE_VERSION = some 1 ∧
    evalExpr REPLAY_VERSION = some 1 ∧
    evalExpr CAPTURE_VERSION = evalExpr REPLAY_VERSION ∧
    (∀ v : Nat, evalExpr (binExpr v .ne CAPTURE_VERSION) = some (if v ≠ 1 then 1 else 0)) ∧
    (∀ v : Nat, evalExpr (binExpr v .ne REPLAY_VERSION) = some (if v ≠ 1 then 1 else 0)) ∧
    (∀ v : Nat, holds (binExpr v .ne CAPTURE_VERSION) = true ↔ v ≠ 1) ∧
    (∀ v : Nat, holds (binExpr v .ne REPLAY_VERSION) = true ↔ v ≠ 1) ∧
    holds (binExpr 1 .ne CAPTURE_VERSION) = false ∧
    holds (binExpr 1 .ne REPLAY_VERSION) = false ∧
    holds (binExpr 2 .ne CAPTURE_VERSION) = true ∧
    holds (binExpr 0 .ne REPLAY_VERSION) = true := by
  refine ⟨by decide, by decide, by decide, ?_, ?_, ?_, ?_,
    by decide, by decide, by decide, by decide⟩
  · intro v
    simp [CAPTURE_VERSION, evalExpr_cmp_num v 1 .ne (by decide), BinOp.apply]
  · intro v
    simp [REPLAY_VERSION, evalExpr_cmp_num v 1 .ne (by decide), BinOp.apply]
  · intro v
    simp [CAPTURE_VERSION, holds_ne_one]
  · intro v
    simp [REPLAY_VERSION, holds_ne_one]

/-- C4, as amended: `status_e` has exactly the three enumerators `SUCCESS`,
`UNKNOWN` and `ERROR`, with the values the declaration gives them; the three
values are pairwise distinct, so `UNKNOWN` differs from both `SUCCESS` and
`ERROR`; and a value of the type is one of the three, and then exactly one,
exactly when its integer is below 3. -/
theorem status_e_tristate :
    status_e.enumerators = [.SUCCESS, .UNKNOWN, .ERROR] ∧
    status_e.enumerators.length = 3 ∧
    (∀ e : Enumerator, e.toNat = some (status_e.ofEnumerator e).val) ∧
    status_e.SUCCESS ≠ status_e.UNKNOWN ∧
    status_e.SUCCESS ≠ status_e.ERROR ∧
    status_e.UNKNOWN ≠ status_e.ERROR ∧
    (∀ v : status_e, v.val < 3 → (v = .SUCCESS ∨ v = .UNKNOWN ∨ v = .ERROR)) ∧
    (∀ v : status_e, (v = .SUCCESS ∨ v = .UNKNOWN ∨ v = .ERROR) → v.val < 3) ∧
    (∀ v : status_e, v.val < 3 →
      (status_e.enumerators.filter (fun e => status_e.ofEnumerator e = v)).length = 1) := by
  refine ⟨rfl, rfl, ?_, by decide, by decide, by decide, ?_, ?_, ?_⟩
  · intro e
    cases e <;> decide
  · rintro ⟨n⟩ hn
    simp only at hn
    have h : n = 0 ∨ n = 1 ∨ n = 2 := by omega
    rcases h with h | h | h <;> subst h <;> decide
  · rintro v (h | h | h) <;> subst h <;> decide
  · rintro ⟨n⟩ hn
    simp only at hn
    have h : n = 0 ∨ n = 1 ∨ n = 2 := by omega
    rcases h with h | h | h <;> subst h <;> decide

/-- Witness of C4: the value 1 is below 3; it is `UNKNOWN` and is denoted by
exactly one enumerator. -/
theorem status_e_tristate_witness :
    (status_e.mk 1).val < 3 ∧
    (status_e.mk 1 = .SUCCESS ∨ status_e.mk 1 = .UNKNOWN ∨ status_e.mk 1 = .ERROR) ∧
    (status_e.enumerators.filter (fun e => status_e.ofEnumerator e = status_e.mk 1)).length = 1 :=
  ⟨by decide, status_e_tristate.2.2.2.2.2.2.1 (status_e.mk 1) (by decide),
    status_e_tristate.2.2.2.2.2.2.2.2 (status_e.mk 1) (by decide)⟩

/-- C4 as stated fails: the value `(status_e)3` of the type is none of
`SUCCESS`, `UNKNOWN` and `ERROR` and no enumerator denotes it, so not every
value of the type is one of the three. -/
theorem status_e_value_three :
    status_e.mk 3 ≠ status_e.SUCCESS ∧
    status_e.mk 3 ≠ status_e.UNKNOWN ∧
    status_e.mk 3 ≠ status_e.ERROR ∧
    (status_e.enumerators.filter (fun e => status_e.ofEnumerator e = status_e.mk 3)).length = 0 ∧
    ¬ (∀ v : status_e, v = .SUCCESS ∨ v = .UNKNOWN ∨ v = .ERROR) := by
  refine ⟨by decide, by decide, by decide, by decide, ?_⟩
  intro h
  have h3 := h (status_e.mk 3)
  revert h3
  decide

/-- C5: `TASK_BUFFER_PER_THREAD` is 512, so the enqueue guard
`size < TASK_BUFFER_PER_THREAD` is true exactly for the sizes up to 511, and
a queue that passes the guard has at most 512 entries after the enqueue. -/
theorem task_buffer_capacity :
    evalExpr TASK_BUFFER_PER_THREAD = some 512 ∧
    (∀ s : Nat, evalExpr (binExpr s .lt TASK_BUFFER_PER_THREAD) = some (if s < 512 then 1 else 0)) ∧
    (∀ s : Nat, holds (binExpr s .lt TASK_BUFFER_PER_THREAD) = true ↔ s ≤ 511) ∧
    (∀ s : Nat, holds (binExpr s .lt TASK_BUFFER_PER_THREAD) = true → s + 1 ≤ 512) := by
  refine ⟨by decide, ?_, ?_, ?_⟩
  · intro s
    simp [TASK_BUFFER_PER_THREAD, evalExpr_cmp_num s 512 .lt (by decide), BinOp.apply]
  · intro s
    simp only [holds_lt_TASK_BUFFER_PER_THREAD, decide_eq_true_eq]
    omega
  · intro s
    simp only [holds_lt_TASK_BUFFER_PER_THREAD, decide_eq_true_eq]
    omega

/-- Witness of C5: a queue of 511 entries passes the guard and has 512 entries
after the enqueue. -/
theorem task_buffer_capacity_witness :
    holds (binExpr 511 .lt TASK_BUFFER_PER_THREAD) = true ∧ 511 + 1 ≤ 512 :=
  ⟨by decide, task_buffer_capacity.2.2.2 511 (by decide)⟩

/-- C9: the enumerators have the values `SUCCESS = 0`, `UNKNOWN = 1`,
`ERROR = 2`; `SUCCESS` is the only status with value zero, the value zero
converts to `SUCCESS`, a zero-initialised `status_e` is `SUCCESS` and not
`UNKNOWN`, and a status is non-zero exactly when it is `UNKNOWN` or `ERROR`. -/
theorem status_e_values :
    enumValues status_e.enumerators 0 = [(.SUCCESS, 0), (.UNKNOWN, 1), (.ERROR, 2)] ∧
    Enumerator.SUCCESS.toNat = some 0 ∧
    Enumerator.UNKNOWN.toNat = some 1 ∧
    Enumerator.ERROR.toNat = some 2 ∧
    (∀ s : Enumerator, s.toNat = some 0 ↔ s = .SUCCESS) ∧
    Enumerator.fromNat 0 = some .SUCCESS ∧
    Enumerator.fromNat 0 ≠ some .UNKNOWN ∧
    (∀ s : Enumerator, s.toNat ≠ some 0 ↔ (s = .UNKNOWN ∨ s = .ERROR)) ∧
    status_e.SUCCESS.val = 0 ∧
    status_e.UNKNOWN.val = 1 ∧
    status_e.ERROR.val = 2 ∧
    (∀ v : status_e, v.val = 0 ↔ v = .SUCCESS) ∧
    status_e.mk 0 = status_e.SUCCESS ∧
    status_e.mk 0 ≠ status_e.UNKNOWN := by
  refine ⟨rfl, by decide, by decide, by decide, ?_, by decide, by decide, ?_,
    rfl, rfl, rfl, ?_, by decide, by decide⟩
  · intro s
    cases s <;> decide
  · intro s
    cases s <;> decide
  · rintro ⟨n⟩
    constructor
    · intro h
      simp only at h
      subst h
      decide
    · intro h
      rw [h]
      rfl

/-- C10: spliced after `/` or `%`, the unparenthesised body `1024*8` is
regrouped: `n / MAX_LINE_LEN` is `(n / 1024) * 8` and `n % MAX_LINE_LEN` is
`(n % 1024) * 8`.  At `n = 8193` these are 64 and 8, while division and
remainder by the value 8192 of `MAX_LINE_LEN` give 1 and 1. -/
theorem max_line_len_div_mod_8193 :
    evalExpr MAX_LINE_LEN = some 8192 ∧
    (∀ n : Nat, evalExpr (binExpr n .div MAX_LINE_LEN) = some (n / 1024 * 8)) ∧
    (∀ n : Nat, evalExpr (binExpr n .mod MAX_LINE_LEN) = some (n % 1024 * 8)) ∧
    evalExpr (binExpr 8193 .div MAX_LINE_LEN) = some 64 ∧
    evalExpr (binExpr 8193 .div [.num 8192]) = some 1 ∧
    8193 / 8192 = 1 ∧
    evalExpr (binExpr 8193 .mod MAX_LINE_LEN) = some 8 ∧
    evalExpr (binExpr 8193 .mod [.num 8192]) = some 1 ∧
    8193 % 8192 = 1 := by
  refine ⟨by decide, ?_, ?_, by decide, by decide, by decide, by decide, by decide, by decide⟩
  · intro n
    simp [evalExpr, binExpr, MAX_LINE_LEN, evalLoop, unwind, reduceTop, BinOp.prec, BinOp.apply]
  · intro n
    simp [evalExpr, binExpr, MAX_LINE_LEN, evalLoop, unwind, reduceTop, BinOp.prec, BinOp.apply]

/-! ## Tokenizer round trip -/

section ReaderProofs

variable {α : Type} [DecidableEq α]

theorem splitFields_ne_nil (d : α) (l : List α) : splitFields d l ≠ [] := by
  cases l with
  | nil => simp [splitFields]
  | cons c cs =>
    simp only [splitFields]
    split
    · simp
    · split <;> simp

theorem length_splitFields (d : α) (l : List α) :
    (splitFields d l).length = l.count d + 1 := by
  induction l with
  | nil => simp [splitFields]
  | cons c cs ih =>
    simp only [splitFields]
    by_cases h : c = d
    · subst h
      simp [ih]
    · have hc : (c == d) = false := by simpa using h
      rw [if_neg h, List.count_cons, hc]
      cases hs : splitFields d cs with
      | nil => exact absurd hs (splitFields_ne_nil d cs)
      | cons f fs =>
        rw [hs] at ih
        simpa using ih

theorem joinFields_cons_cons {β : Type} (d c : β) (f : List β) (fs : List (List β)) :
    joinFields d ((c :: f) :: fs) = c :: joinFields d (f :: fs) := by
  cases fs <;> simp [joinFields]

theorem joinFields_splitFields (d : α) (l : List α) :
    joinFields d (splitFields d l) = l := by
  induction l with
  | nil => simp [splitFields, joinFields]
  | cons c cs ih =>
    simp only [splitFields]
    cases hs : splitFields d cs with
    | nil => exact absurd hs (splitFields_ne_nil d cs)
    | cons f fs =>
      rw [hs] at ih
      by_cases h : c = d
      · rw [if_pos h]
        simp [joinFields, ih, h]
      · rw [if_neg h]
        simp only [joinFields_cons_cons, ih]

/-- C6: a line of at most 8192 bytes with at most 10 delimiter-separated
fields (at most 9 delimiters) is tokenized successfully, into as many tokens
as it has fields, and joining the tokens with the delimiter gives the line
back. -/
theorem tokenize_roundtrip (d : α) (line : List α)
    (hlen : line.length ≤ 8192) (hfields : line.count d + 1 ≤ 10) :
    ∃ ts : List (List α), tokenize d line = .ok ts ∧ ts.length = line.count d + 1 ∧
      joinFields d ts = line := by
  refine ⟨splitFields d line, ?_, length_splitFields d line, joinFields_splitFields d line⟩
  have h1 : ¬ 8192 < line.length := by omega
  have h2 : ¬ 10 < line.count d + 1 := by omega
  simp [tokenize, holds_gt_MAX_LINE_LEN, holds_gt_MAX_TOKENS, length_splitFields, h1, h2]

/-- Witness of C6: the line `WRITE,/data/a,4096,0` with `,` as delimiter. -/
theorem tokenize_roundtrip_witness :
    exampleLine.length ≤ 8192 ∧ exampleLine.count ',' + 1 ≤ 10 ∧
    ∃ ts : List (List Char), tokenize ',' exampleLine = .ok ts ∧
      ts.length = exampleLine.count ',' + 1 ∧ joinFields ',' ts = exampleLine :=
  ⟨by decide, by decide, tokenize_roundtrip ',' exampleLine (by decide) (by decide)⟩

/-! ## The example trace -/

theorem readLine_too_long (fmt : Format α) (lineNo : Nat) (line : List α)
    (h : 8192 < line.length) : readLine fmt lineNo line = some (.failure lineNo .ERROR) := by
  simp [readLine, holds_gt_MAX_LINE_LEN, h]

/-- C7: in a version-1 replay trace with `,` as delimiter, the line
`WRITE,/data/a,4096,0` (20 bytes, 4 fields, within both limits) is read as a
record, any line of 9000 bytes is over `MAX_LINE_LEN` and is read as a
per-line `ERROR`, the lines after it are still read, and the trace of these
two lines ends without a fatal failure with one record and one error. -/
theorem example_trace (fmt : Format Char) (long : List Char)
    (hd : fmt.delim = ',') (hc : fmt.isComment exampleLine = false)
    (hl : long.length = 9000) :
    exampleLine.length = 20 ∧ exampleLine.count ',' + 1 = 4 ∧
    holds (binExpr exampleLine.length .gt MAX_LINE_LEN) = false ∧
    holds (binExpr (exampleLine.count ',' + 1) .gt MAX_TOKENS) = false ∧
    holds (binExpr long.length .gt MAX_LINE_LEN) = true ∧
    holds (binExpr 1 .ne REPLAY_VERSION) = false ∧
    readLine fmt 2 exampleLine =
      some (.record ⟨"WRITE".toList, ["/data/a".toList, "4096".toList, "0".toList]⟩) ∧
    readLine fmt 3 long = some (.failure 3 .ERROR) ∧
    (∀ rest : List (List Char),
      (readTrace .replay fmt ⟨1, exampleLine :: long :: rest⟩).fatal = false ∧
      (readTrace .replay fmt ⟨1, exampleLine :: long :: rest⟩).results =
        .record ⟨"WRITE".toList, ["/data/a".toList, "4096".toList, "0".toList]⟩ ::
          .failure 3 .ERROR :: readLines fmt 4 rest) ∧
    (readTrace .replay fmt ⟨1, [exampleLine, long]⟩).processed = 1 ∧
    (readTrace .replay fmt ⟨1, [exampleLine, long]⟩).errors = 1 := by
  have hlong : readLine fmt 3 long = some (.failure 3 .ERROR) :=
    readLine_too_long fmt 3 long (by omega)
  have hfirst : readLine fmt 2 exampleLine =
      some (.record ⟨"WRITE".toList, ["/data/a".toList, "4096".toList, "0".toList]⟩) := by
    have ht : tokenize ',' exampleLine =
        .ok ["WRITE".toList, "/data/a".toList, "4096".toList, "0".toList] := by rfl
    have he : exampleLine.isEmpty = false := by decide
    have hg : holds (binExpr exampleLine.length .gt MAX_LINE_LEN) = false := by decide
    simp [readLine, hd, hc, ht, he, hg, Record.ofTokens]
  have hres : ∀ rest : List (List Char),
      readTrace .replay fmt ⟨1, exampleLine :: long :: rest⟩ =
        ⟨false, .record ⟨"WRITE".toList, ["/data/a".toList, "4096".toList, "0".toList]⟩ ::
          .failure 3 .ERROR :: readLines fmt 4 rest⟩ := by
    intro rest
    simp [readTrace, holds_ne_supported, readLines, hfirst, hlong]
  refine ⟨by decide, by decide, by decide, by decide, ?_, by decide, hfirst, hlong, ?_, ?_, ?_⟩
  · simp [holds_gt_MAX_LINE_LEN, hl]
  · intro rest
    rw [hres rest]
    exact ⟨rfl, rfl⟩
  · rw [hres []]
    simp [ReadReport.processed, readLines]
  · rw [hres []]
    simp [ReadReport.errors, readLines]

/-- Witness of C7: the comma format with `#` comments and a line of 9000 `x`. -/
theorem example_trace_witness :
    (readTrace .replay commaFormat ⟨1, [exampleLine, List.replicate 9000 'x']⟩).processed = 1 ∧
    (readTrace .replay commaFormat ⟨1, [exampleLine, List.replicate 9000 'x']⟩).errors = 1 :=
  (example_trace commaFormat (List.replicate 9000 'x') rfl (by decide)
    (List.length_replicate 9000 'x')).2.2.2.2.2.2.2.2.2

end ReaderProofs

/-! ## Round-robin dispatch -/

section SchedulerProofs

variable {ρ : Type}

theorem assignedCount_succ (n t w : Nat) :
    assignedCount n (t + 1) w = assignedCount n t w + (if t % n = w then 1 else 0) := by
  unfold assignedCount
  rw [List.range_succ, List.filter_append, List.length_append]
  by_cases h : t % n = w <;> simp [h]

theorem assignedCount_mono (n w : Nat) {t u : Nat} (h : t ≤ u) :
    assignedCount n t w ≤ assignedCount n u w := by
  induction h with
  | refl => exact Nat.le_refl _
  | step _ ih =>
    rw [assignedCount_succ]
    omega

theorem assignedCount_mul (n k w : Nat) (hw : w < n) :
    assignedCount n (n * k) w = k := by
  have block : ∀ j, j ≤ n → ∀ b, assignedCount n (n * b + j) w =
      assignedCount n (n * b) w + (if w < j then 1 else 0) := by
    intro j
    induction j with
    | zero => intro _ b; simp
    | succ j ih =>
      intro hj b
      rw [← Nat.add_assoc, assignedCount_succ, ih (by omega) b]
      have hmod : (n * b + j) % n = j := by
        rw [Nat.mul_add_mod]
        exact Nat.mod_eq_of_lt (by omega)
      rw [hmod]
      by_cases h1 : j = w
      · subst h1
        simp
      · by_cases h2 : w < j
        · have h3 : w < j + 1 := by omega
          simp [h1, h2, h3]
        · have h3 : ¬ w < j + 1 := by omega
          simp [h1, h2, h3]
  induction k with
  | zero => simp [assignedCount]
  | succ k ih =>
    have := block n (Nat.le_refl n) k
    rw [Nat.mul_succ, this, ih]
    simp [hw]

theorem Sched.inv_init (n : Nat) (records : List ρ) :
    Sched.Inv n records.length (Sched.init records) := by
  refine ⟨by simp [Sched.init], ?_⟩
  intro w
  simp [Sched.init, assignedCount]

theorem Sched.inv_step (n total : Nat) (s t : Sched ρ) (e : Event)
    (hs : Sched.Inv n total s) (h : s.step n (roundRobin n) e = some t) :
    Sched.Inv n total t := by
  obtain ⟨hcount, hq⟩ := hs
  cases e with
  | dispatch =>
    simp only [Sched.step] at h
    cases hp : s.pending with
    | nil => simp [hp] at h
    | cons r rs =>
      simp only [hp, holds_lt_TASK_BUFFER_PER_THREAD, decide_eq_true_eq] at h
      split at h
      · rename_i hg
        simp only [Option.some.injEq] at h
        subst h
        refine ⟨?_, ?_⟩
        · simp only [hp, List.length_cons] at hcount
          simp only
          omega
        · intro w
          obtain ⟨h1, h2, h3⟩ := hq w
          simp only [Function.update_apply, assignedCount_succ, roundRobin] at *
          by_cases hw : w = s.seq % n
          · subst hw
            simp only [if_true, List.length_append, List.length_singleton]
            omega
          · have hw2 : ¬ s.seq % n = w := fun h => hw h.symm
            simp only [hw, hw2, if_false]
            omega
      · simp at h
  | work w0 =>
    simp only [Sched.step] at h
    cases hq0 : s.queue w0 with
    | nil => simp [hq0] at h
    | cons a ts =>
      simp only [hq0, Option.some.injEq] at h
      subst h
      refine ⟨hcount, ?_⟩
      intro w
      obtain ⟨h1, h2, h3⟩ := hq w
      simp only [Function.update_apply]
      by_cases hw : w = w0
      · subst hw
        simp only [if_true]
        rw [hq0] at h1 h2
        simp only [List.length_cons] at h1 h2
        exact ⟨by omega, by omega, h3⟩
      · simp only [hw, if_false]
        exact ⟨h1, h2, h3⟩

theorem Sched.inv_run (n total : Nat) (evs : List Event) (s t : Sched ρ)
    (hs : Sched.Inv n total s) (h : Sched.run n (roundRobin n) evs s = some t) :
    Sched.Inv n total t := by
  induction evs generalizing s with
  | nil =>
    simp only [Sched.run, Option.some.injEq] at h
    exact h ▸ hs
  | cons e es ih =>
    simp only [Sched.run] at h
    cases hstep : s.step n (roundRobin n) e with
    | none => simp [hstep] at h
    | some s1 =>
      rw [hstep] at h
      exact ih s1 (Sched.inv_step n total s s1 e hs hstep) h

theorem Sched.dispatch_enabled (n k : Nat) (hn : 0 < n) (hk : k ≤ 512) (s : Sched ρ)
    (hs : Sched.Inv n (n * k) s) (hp : s.pending ≠ []) :
    ∃ t, s.step n (roundRobin n) .dispatch = some t ∧
      t.pending.length + 1 = s.pending.length := by
  obtain ⟨hcount, hq⟩ := hs
  cases hpe : s.pending with
  | nil => exact absurd hpe hp
  | cons r rs =>
    have hlt : s.seq + 1 ≤ n * k := by
      rw [hpe, List.length_cons] at hcount
      omega
    have hw : s.seq % n < n := Nat.mod_lt _ hn
    obtain ⟨_, h2, h3⟩ := hq (s.seq % n)
    have hmono := assignedCount_mono n (s.seq % n) hlt
    rw [assignedCount_succ, assignedCount_mul n k _ hw] at hmono
    simp only [if_true] at hmono
    have hroom : (s.queue (s.seq % n)).length < 512 := by omega
    simp [Sched.step, hpe, roundRobin, holds_lt_TASK_BUFFER_PER_THREAD, hw, hroom]

theorem Sched.dispatch_all (n k : Nat) (hn : 0 < n) (hk : k ≤ 512) (m : Nat) :
    ∀ s : Sched ρ, Sched.Inv n (n * k) s → s.pending.length = m →
      ∃ t, Sched.run n (roundRobin n) (List.replicate m .dispatch) s = some t ∧
        t.pending = [] := by
  induction m with
  | zero =>
    intro s _ hm
    exact ⟨s, rfl, List.eq_nil_of_length_eq_zero hm⟩
  | succ m ih =>
    intro s hs hm
    have hp : s.pending ≠ [] := by
      intro h
      simp [h] at hm
    obtain ⟨s1, hstep, hlen⟩ := Sched.dispatch_enabled n k hn hk s hs hp
    obtain ⟨t, hrun, hdone⟩ :=
      ih s1 (Sched.inv_step n (n * k) s s1 .dispatch hs hstep) (by omega)
    exact ⟨t, by simp [List.replicate_succ, Sched.run, hstep, hrun], hdone⟩

/-- C8: with 4 workers and 2000 records assigned round-robin, each worker is
assigned exactly 500 records, 500 is not above `TASK_BUFFER_PER_THREAD`, and
in every state of every run each queue holds at most 512 tasks and at most
the 500 tasks its worker receives; the scheduler is never blocked by a full
queue, the run of 2000 assignments completes, and once all records are
assigned every worker has received exactly 500 tasks. -/
theorem round_robin_example (records : List ρ) (hrec : records.length = 2000) :
    (∀ (i : Nat) (r : ρ), roundRobin 4 i r = i % 4) ∧
    (∀ w : Nat, w < 4 → assignedCount 4 2000 w = 500) ∧
    holds (binExpr 500 .gt TASK_BUFFER_PER_THREAD) = false ∧
    evalExpr TASK_BUFFER_PER_THREAD = some 512 ∧
    (∀ (evs : List Event) (s : Sched ρ),
      Sched.run 4 (roundRobin 4) evs (Sched.init records) = some s →
        (∀ w : Nat, (s.queue w).length ≤ 512 ∧ (s.queue w).length ≤ s.received w ∧
          s.received w ≤ 500) ∧
        (s.pending = [] → ∀ w : Nat, w < 4 → s.received w = 500) ∧
        (s.pending ≠ [] → (s.step 4 (roundRobin 4) .dispatch).isSome = true)) ∧
    (∃ s : Sched ρ,
      Sched.run 4 (roundRobin 4) (List.replicate 2000 .dispatch) (Sched.init records) = some s ∧
        s.pending = [] ∧ ∀ w : Nat, w < 4 → s.received w = 500) := by
  have hcnt : ∀ w : Nat, w < 4 → assignedCount 4 2000 w = 500 :=
    fun w hw => assignedCount_mul 4 500 w hw
  have hfull : ∀ w : Nat, assignedCount 4 2000 w ≤ 500 := by
    intro w
    by_cases hw : w < 4
    · exact Nat.le_of_eq (hcnt w hw)
    · have h0 : ∀ t, assignedCount 4 t w = 0 := by
        intro t
        induction t with
        | zero => rfl
        | succ t ih =>
          have : ¬ t % 4 = w := by omega
          rw [assignedCount_succ, ih]
          simp [this]
      rw [h0]
      omega
  have hinit : Sched.Inv 4 (4 * 500) (Sched.init records) := by
    have := Sched.inv_init 4 records
    rwa [hrec] at this
  have hfinal : ∀ s : Sched ρ, Sched.Inv 4 (4 * 500) s → s.pending = [] →
      ∀ w : Nat, w < 4 → s.received w = 500 := by
    intro s hs hp w hw
    obtain ⟨hc, hq⟩ := hs
    have hseq : s.seq = 2000 := by
      simp only [hp, List.length_nil] at hc
      omega
    rw [(hq w).2.2, hseq]
    exact hcnt w hw
  refine ⟨fun _ _ => rfl, hcnt, ?_, by decide, ?_, ?_⟩
  · simp [TASK_BUFFER_PER_THREAD, holds, evalExpr_cmp_num 500 512 .gt (by decide), BinOp.apply]
  · intro evs s hrun
    have hs := Sched.inv_run 4 (4 * 500) evs (Sched.init records) s hinit hrun
    refine ⟨?_, hfinal s hs, ?_⟩
    · intro w
      obtain ⟨hc, hq⟩ := hs
      obtain ⟨h1, h2, h3⟩ := hq w
      refine ⟨h1, h2, ?_⟩
      rw [h3]
      have hseq : s.seq ≤ 2000 := by omega
      exact Nat.le_trans (assignedCount_mono 4 w hseq) (hfull w)
    · intro hp
      obtain ⟨t, ht, _⟩ := Sched.dispatch_enabled 4 500 (by decide) (by decide) s hs hp
      simp [ht]
  · obtain ⟨t, hrun, hdone⟩ := Sched.dispatch_all 4 500 (by decide) (by decide) 2000
      (Sched.init records) hinit (by simpa [Sched.init] using hrec)
    exact ⟨t, hrun, hdone,
      hfinal t (Sched.inv_run 4 (4 * 500) _ (Sched.init records) t hinit hrun) hdone⟩

/-- Witness of C8: 2000 unit records; after two assignments and one dequeue by
worker 0 the queues of workers 0 and 1 hold 0 and 1 tasks. -/
theorem round_robin_example_witness :
    (List.replicate 2000 ()).length = 2000 ∧
    assignedCount 4 2000 0 = 500 ∧
    (∃ s : Sched Unit,
      Sched.run 4 (roundRobin 4) [.dispatch, .dispatch, .work 0]
        (Sched.init (List.replicate 2000 ())) = some s ∧
      (s.queue 0).length = 0 ∧ (s.queue 1).length = 1 ∧ (s.queue 1).length ≤ 512) ∧
    (∃ s : Sched Unit,
      Sched.run 4 (roundRobin 4) (List.replicate 2000 .dispatch)
        (Sched.init (List.replicate 2000 ())) = some s ∧
      s.pending = [] ∧ s.received 0 = 500) := by
  have h := round_robin_example (List.replicate 2000 ()) (List.length_replicate 2000 ())
  refine ⟨List.length_replicate 2000 (), h.2.1 0 (by decide), ?_, ?_⟩
  · have hsome : (Sched.run 4 (roundRobin 4) [.dispatch, .dispatch, .work 0]
        (Sched.init (List.replicate 2000 ()))).isSome = true := by decide
    have hs := (Option.some_get hsome).symm
    exact ⟨_, hs, rfl, rfl, ((h.2.2.2.2.1 _ _ hs).1 1).1⟩
  · obtain ⟨s, hs, hp, hr⟩ := h.2.2.2.2.2
    exact ⟨s, hs, hp, hr 0 (by decide)⟩

end SchedulerProofs

end Ioriot
